import Mathlib

/-!
# Verification of the Redpanda raft heartbeat manager core

A shallow embedding of `src/v/raft/heartbeat_manager.cc`: the request
planner (`requests_for_range`), the dispatcher (`send_heartbeats`,
`do_heartbeat`, `do_self_heartbeat`, `do_dispatch_heartbeats`) and the
reply router (`process_reply`).

Modelling conventions:
* `clock_type::time_point` and durations are `Int` (a monotonic clock in
  arbitrary ticks); `model::node_id`, `raft::group_id` are `Nat`;
  `model::offset`, terms and indices are `Int`; `follower_req_seq` is `Nat`.
* `absl::flat_hash_map` is an association list whose keys are kept
  distinct by an `emplace` that inserts only when the key is absent —
  exactly the semantics of `flat_hash_map::emplace`.  Hash-iteration
  order is modelled as key-insertion order; no claim below depends on
  the order in which distinct keys are enumerated.
* Calls into a consensus-group handle
  (`next_follower_sequence`, `update_suppress_heartbeats`,
  `update_heartbeat_status`, `process_append_entries_reply`, probe
  increments, error logs) are effects on an external object; the
  embedding records them as an explicit, ordered trace of actions,
  alongside the pure state the source threads (`pending_beats`,
  `reconnect_nodes`).
* Asynchrony in `do_heartbeat` (the transport future, the outer
  `ss::with_timeout`, the gate) is modelled by a `SendOutcome` datum
  naming which of the mutually exclusive completions happened first.
-/

namespace Heartbeat

/-- Embeds `model::node_id`. -/
abbrev NodeId := Nat

/-- Embeds `raft::group_id`. -/
abbrev GroupId := Nat

/-- Embeds `raft::vnode`: a node id at a configuration revision. -/
structure VNode where
  id : NodeId
  revision : Int
  deriving DecidableEq, Repr

/-- Embeds `raft::protocol_metadata`, the append-entries preamble returned by
`consensus::meta()`. -/
structure ProtocolMetadata where
  group : GroupId
  commit_index : Int
  term : Int
  prev_log_index : Int
  prev_log_term : Int
  deriving DecidableEq, Repr

/-- Embeds `raft::heartbeat_metadata`: `\x7bmeta, node_id, target_node_id\x7d`. -/
structure HeartbeatMetadata where
  meta : ProtocolMetadata
  node_id : VNode
  target_node_id : VNode
  deriving DecidableEq, Repr

/-- The value-initialized `vnode{}` produced by the two-element aggregate
initialization `heartbeat_metadata{ptr->meta(), rni}` on the self-beat
path, which leaves `target_node_id` default-constructed. -/
def vnodeDefault : VNode := ⟨0, 0⟩

/-- Embeds `heartbeat_manager::follower_request_meta`:
`{seq, dirty_offset, follower_vnode}`. -/
structure FollowerRequestMeta where
  seq : Nat
  dirty_offset : Int
  follower_vnode : VNode
  deriving DecidableEq, Repr

/-- Embeds `raft::heartbeat_request`, a vector of `heartbeat_metadata`;
`heartbeat_manager::node_heartbeat` bundles it with the destination and
the per-group bookkeeping map. -/
structure NodeHeartbeat where
  target : NodeId
  request : List HeartbeatMetadata
  meta_map : List (GroupId × FollowerRequestMeta)
  deriving DecidableEq, Repr

/-- Embeds `append_entries_reply::status`. -/
inductive ReplyStatus where
  | success
  | failure
  | group_unavailable
  | timeout
  deriving DecidableEq, Repr

/-- Embeds `raft::append_entries_reply` (the fields the heartbeat core touches). -/
structure AppendEntriesReply where
  target_node_id : VNode
  node_id : VNode
  group : GroupId
  result : ReplyStatus
  deriving DecidableEq, Repr

/-- Embeds `raft::heartbeat_reply`. -/
structure HeartbeatReply where
  meta : List AppendEntriesReply
  deriving DecidableEq, Repr

/-- The observable face of one `raft::consensus` handle during a tick:
the registry entry the planner and router consult (§4.2 of the spec).
The function-valued fields stand for the handle's answers for each
follower vnode; `nextSeq` is the value `next_follower_sequence` returns
when the planner calls it for that follower in this tick. -/
structure ConsensusState where
  meta : ProtocolMetadata
  isLeader : Bool
  selfVNode : VNode
  voters : List VNode
  suppressed : VNode → Bool
  lastAppendTimestamp : VNode → Int
  nextSeq : VNode → Nat
  shouldReconnect : VNode → Bool

/-- Embeds `consensus::group()`. -/
def ConsensusState.group (c : ConsensusState) : GroupId := c.meta.group

/-- Embeds `flat_hash_map::emplace`: insert only when the key is absent. -/
def emplace {β : Type} (m : List (GroupId × β)) (k : GroupId) (v : β) :
    List (GroupId × β) :=
  if m.any (fun p => p.1 = k) then m else m ++ [(k, v)]

/-- Association-list lookup (`flat_hash_map::find`). -/
def alistFind? {α β : Type} [DecidableEq α] (m : List (α × β)) (k : α) :
    Option β :=
  match m.find? (fun p => p.1 = k) with
  | some p => some p.2
  | none => none

/-- Embeds `pending_beats[rni.id()].emplace_back(hb, seq)`: append an entry to
the per-node vector, creating the node's slot on first use (key-insertion
order models the hash map's bucket creation). -/
def pendingAppend (pb : List (NodeId × List (HeartbeatMetadata × Nat)))
    (n : NodeId) (e : HeartbeatMetadata × Nat) :
    List (NodeId × List (HeartbeatMetadata × Nat)) :=
  match pb with
  | [] => [(n, [e])]
  | (k, l) :: rest =>
      if k = n then (k, l ++ [e]) :: rest
      else (k, l) :: pendingAppend rest n e

/-- Embeds `flat_hash_set<model::node_id>::insert`. -/
def insertNode (s : List NodeId) (n : NodeId) : List NodeId :=
  if n ∈ s then s else s ++ [n]

/-- The mutable state the planner threads through
`maybe_create_follower_request`: `pending_beats` and `reconnect_nodes`. -/
structure PlanState where
  pending : List (NodeId × List (HeartbeatMetadata × Nat))
  reconnect : List NodeId
  deriving DecidableEq, Repr

/-- One call the planner makes into a consensus handle, in program
order.  `appendPending` also records which voter was being processed. -/
inductive PlanAction where
  | nextFollowerSeq (g : GroupId) (v : VNode)
  | suppressOn (g : GroupId) (v : VNode) (seq : Nat)
  | appendPending (v : VNode) (n : NodeId) (hb : HeartbeatMetadata) (seq : Nat)
  | addReconnect (n : NodeId)
  deriving DecidableEq, Repr

/-- Embeds `maybe_create_follower_request` from `requests_for_range`
(heartbeat_manager.cc lines 69–110): the per-voter body, threading the
planner state and emitting the trace of handle calls it performs. -/
def maybe_create_follower_request (ptr : ConsensusState)
    (last_heartbeat : Int) (acc : PlanState × List PlanAction)
    (rni : VNode) : PlanState × List PlanAction :=
  let (st, tr) := acc
  -- special case self beat: emplace {ptr->meta(), rni} with seq 0
  if rni = ptr.selfVNode then
    let hb : HeartbeatMetadata := ⟨ptr.meta, rni, vnodeDefault⟩
    ({ st with pending := pendingAppend st.pending rni.id (hb, 0) },
     tr ++ [.appendPending rni rni.id hb 0])
  else if ptr.suppressed rni then
    (st, tr)
  else if ptr.lastAppendTimestamp rni > last_heartbeat then
    -- we already sent heartbeat, skip it
    (st, tr)
  else
    let seq := ptr.nextSeq rni
    let hb : HeartbeatMetadata := ⟨ptr.meta, ptr.selfVNode, rni⟩
    let st' : PlanState :=
      { pending := pendingAppend st.pending rni.id (hb, seq),
        reconnect :=
          if ptr.shouldReconnect rni then insertNode st.reconnect rni.id
          else st.reconnect }
    (st', tr ++ ([.nextFollowerSeq ptr.group rni,
                  .suppressOn ptr.group rni seq,
                  .appendPending rni rni.id hb seq] ++
                 if ptr.shouldReconnect rni then [.addReconnect rni.id]
                 else []))

/-- The double loop of `requests_for_range`: for each leader group,
run `maybe_create_follower_request` over its voters. -/
def plan_groups (c : List ConsensusState) (last_heartbeat : Int) :
    PlanState × List PlanAction :=
  c.foldl
    (fun acc ptr =>
      if ptr.isLeader then
        ptr.voters.foldl (maybe_create_follower_request ptr last_heartbeat) acc
      else acc)
    (⟨[], []⟩, [])

/-- The body of the collapse loop (lines 127–133): push the heartbeat
onto `requests` and `emplace` its bookkeeping entry into `meta_map`. -/
def build_step
    (acc : List HeartbeatMetadata × List (GroupId × FollowerRequestMeta))
    (e : HeartbeatMetadata × Nat) :
    List HeartbeatMetadata × List (GroupId × FollowerRequestMeta) :=
  (acc.1 ++ [e.1],
   emplace acc.2 e.1.meta.group
     ⟨e.2, e.1.meta.prev_log_index, e.1.target_node_id⟩)

/-- The collapse loop (lines 119–136): one `node_heartbeat` per pending
node, `requests` in vector order, `meta_map` built with `emplace`. -/
def buildNodeHeartbeat (p : NodeId × List (HeartbeatMetadata × Nat)) :
    NodeHeartbeat :=
  let (requests, meta_map) := p.2.foldl build_step ([], [])
  ⟨p.1, requests, meta_map⟩

/-- Embeds `raft::heartbeat_requests`. -/
structure HeartbeatRequests where
  requests : List NodeHeartbeat
  reconnect_nodes : List NodeId
  deriving DecidableEq, Repr

/-- Embeds `requests_for_range(c, heartbeat_interval)` evaluated at clock value
`now`, paired with the trace of consensus-handle calls the pass makes. -/
def requests_for_range (c : List ConsensusState) (now interval : Int) :
    HeartbeatRequests × List PlanAction :=
  if c.isEmpty then (⟨[], []⟩, [])
  else
    let last_heartbeat := now - interval
    let (st, tr) := plan_groups c last_heartbeat
    (⟨st.pending.map buildNodeHeartbeat, st.reconnect⟩, tr)

/-! ## Reply router: `process_reply` (lines 229–278) -/

/-- Embeds an `errc`-style transport error carried by a failed
`result<heartbeat_reply>`. -/
abbrev TransportError := Nat

instance {ε α : Type} [DecidableEq ε] [DecidableEq α] :
    DecidableEq (Except ε α) := fun a b =>
  match a, b with
  | .error e, .error f =>
      if h : e = f then .isTrue (by rw [h]) else .isFalse (by simp [h])
  | .error _, .ok _ => .isFalse (by simp)
  | .ok _, .error _ => .isFalse (by simp)
  | .ok x, .ok y =>
      if h : x = y then .isTrue (by rw [h]) else .isFalse (by simp [h])

/-- One call the reply router makes (or log line it emits), in program
order.  `processAppendEntriesReply` carries the routed
`result<append_entries_reply>`. -/
inductive ReplyAction where
  | updateHeartbeatStatus (g : GroupId) (v : VNode) (ok : Bool)
  | updateSuppress (g : GroupId) (v : VNode) (seq : Nat) (suppress : Bool)
  | processAppendEntriesReply (g : GroupId) (n : NodeId)
      (r : Except TransportError AppendEntriesReply) (seq : Nat)
      (dirty_offset : Int)
  | heartbeatRequestError (g : GroupId)
  | logMissingGroup (g : GroupId)
  deriving DecidableEq, Repr

/-- Embeds the check `_consensus_groups.find(g) != end()` on the registry, keyed by group
id. -/
def registryHas (reg : List ConsensusState) (g : GroupId) : Bool :=
  reg.any (fun p => p.group = g)

/-- The error branch of `process_reply` (lines 233–259): for each
`(group, req_meta)` of the batch bookkeeping map, skip missing groups,
otherwise status-update, un-suppress, propagate the error, bump the
probe. -/
def process_reply_error (reg : List ConsensusState) (n : NodeId)
    (groups : List (GroupId × FollowerRequestMeta)) (e : TransportError) :
    List ReplyAction :=
  groups.foldl
    (fun acc p =>
      let (g, req_meta) := p
      if registryHas reg g then
        acc ++ [.updateHeartbeatStatus g req_meta.follower_vnode false,
                .updateSuppress g req_meta.follower_vnode req_meta.seq false,
                .processAppendEntriesReply g n (.error e) req_meta.seq
                  req_meta.dirty_offset,
                .heartbeatRequestError g]
      else acc ++ [.logMissingGroup g])
    []

/-- The success branch of `process_reply` (lines 261–277).  The source
dereferences `groups.find(m.group)` with no presence check; the
embedding returns `none` exactly when that dereference would have no
defined result (reply entry's group in the registry but absent from the
batch's `meta_map`). -/
def process_reply_success (reg : List ConsensusState) (n : NodeId)
    (groups : List (GroupId × FollowerRequestMeta))
    (ms : List AppendEntriesReply) : Option (List ReplyAction) :=
  match ms with
  | [] => some []
  | m :: rest =>
      if registryHas reg m.group then
        match alistFind? groups m.group with
        | none => none
        | some meta =>
            (process_reply_success reg n groups rest).map
              (fun tail =>
                [.updateHeartbeatStatus m.group meta.follower_vnode true,
                 .updateSuppress m.group meta.follower_vnode meta.seq false,
                 .processAppendEntriesReply m.group n (.ok m) meta.seq
                   meta.dirty_offset] ++ tail)
      else
        (process_reply_success reg n groups rest).map
          (fun tail => .logMissingGroup m.group :: tail)

/-- Embeds `heartbeat_manager::process_reply(n, groups, r)`.  Here `none` marks the
undefined dereference of the success branch; every defined execution is
`some trace`. -/
def process_reply (reg : List ConsensusState) (n : NodeId)
    (groups : List (GroupId × FollowerRequestMeta))
    (r : Except TransportError HeartbeatReply) :
    Option (List ReplyAction) :=
  match r with
  | .error e => some (process_reply_error reg n groups e)
  | .ok reply => process_reply_success reg n groups reply.meta

/-! ## Dispatcher: `do_self_heartbeat`, `do_heartbeat`,
`send_heartbeats`, `do_dispatch_heartbeats` (lines 154–227) -/

/-- The synthesized reply of `do_self_heartbeat` (lines 187–199): one
success entry per request heartbeat, `node_id` and `target_node_id`
both set to the heartbeat's `target_node_id`. -/
def self_heartbeat_reply (r : NodeHeartbeat) : HeartbeatReply :=
  ⟨r.request.map (fun hb =>
    { target_node_id := hb.target_node_id,
      node_id := hb.target_node_id,
      group := hb.meta.group,
      result := .success })⟩

/-- Embeds `do_self_heartbeat` (lines 186–202): fabricate the success reply and
route it through `process_reply`.  No transport call occurs. -/
def do_self_heartbeat (reg : List ConsensusState) (r : NodeHeartbeat) :
    Option (List ReplyAction) :=
  process_reply reg r.target r.meta_map (.ok (self_heartbeat_reply r))

/-- Which of the mutually exclusive completions of a `do_heartbeat`
future chain happened: the transport call and its continuation ran to
completion with result `r`, the outer `ss::with_timeout` fired first, or
the gate closed first. -/
inductive SendOutcome where
  | completed (r : Except TransportError HeartbeatReply)
  | outerTimeout
  | gateClosed
  deriving DecidableEq, Repr

/-- What one `do_heartbeat` call observably does: the deadlines it
passes, and the reply-routing trace it performs (`some []` when the
outcome was swallowed with no routing at all). -/
structure HeartbeatSendResult where
  target : NodeId
  /-- Inner RPC deadline: `clock_type::now() + _heartbeat_timeout`. -/
  innerDeadline : Int
  /-- Outer deadline: `next_heartbeat_timeout() = now + _heartbeat_interval`. -/
  outerDeadline : Int
  routed : Option (List ReplyAction)
  deriving DecidableEq, Repr

/-- Embeds `do_heartbeat` (lines 204–227): issue the RPC with deadline
`now + _heartbeat_timeout`, route the result through `process_reply`
in the continuation, and wrap the whole chain in
`ss::with_timeout(next_heartbeat_timeout(), ·)` whose timeout (and a
closed gate) is swallowed without routing anything. -/
def do_heartbeat (reg : List ConsensusState) (now interval timeout : Int)
    (r : NodeHeartbeat) (outcome : SendOutcome) : HeartbeatSendResult :=
  { target := r.target,
    innerDeadline := now + timeout,
    outerDeadline := now + interval,
    routed :=
      match outcome with
      | .completed ret => process_reply reg r.target r.meta_map ret
      | .outerTimeout => some []
      | .gateClosed => some [] }

/-- One fan-out decision of `send_heartbeats` (lines 160–168): self
targets take the synthetic local path, everything else is a transport
send. -/
inductive DispatchedSend where
  | selfPath (routed : Option (List ReplyAction))
  | transport (send : HeartbeatSendResult)
  deriving DecidableEq, Repr

/-- Embeds `send_heartbeats` (lines 154–171), with each non-self send's
completion drawn from `outcomes`. -/
def send_heartbeats (reg : List ConsensusState) (self : NodeId)
    (now interval timeout : Int) (reqs : List NodeHeartbeat)
    (outcomes : NodeHeartbeat → SendOutcome) : List DispatchedSend :=
  reqs.map (fun r =>
    if r.target = self then .selfPath (do_self_heartbeat reg r)
    else .transport (do_heartbeat reg now interval timeout r (outcomes r)))

/-- One step of `do_dispatch_heartbeats` (lines 173–184) in program
order: the sequential `ensure_disconnect` awaits, then the fan-out of
sends. -/
inductive DispatchAction where
  | ensureDisconnect (n : NodeId) (closed : Bool)
  | send (r : NodeHeartbeat) (s : DispatchedSend)
  deriving DecidableEq, Repr

/-- Embeds `do_dispatch_heartbeats` (lines 173–184): plan, disconnect each
reconnect node in turn (the returned bool only selects the info log),
then `send_heartbeats`. -/
def do_dispatch_heartbeats (c : List ConsensusState) (self : NodeId)
    (now interval timeout : Int) (disconnectResult : NodeId → Bool)
    (outcomes : NodeHeartbeat → SendOutcome) : List DispatchAction :=
  let reqs := (requests_for_range c now interval).1
  reqs.reconnect_nodes.map
    (fun n => DispatchAction.ensureDisconnect n (disconnectResult n)) ++
  (reqs.requests.zip
    (send_heartbeats c self now interval timeout reqs.requests outcomes)).map
    (fun p => DispatchAction.send p.1 p.2)

/-! ## Helper observers and concrete fixtures -/

/-- What voter a planner action was emitted for (`none` for the
reconnect-set insertion, which is keyed by node id, not vnode). -/
def planActionVNode : PlanAction → Option VNode
  | .nextFollowerSeq _ v => some v
  | .suppressOn _ v _ => some v
  | .appendPending v _ _ _ => some v
  | .addReconnect _ => none

/-- The group a reply-router action is addressed to. -/
def replyActionGroup : ReplyAction → GroupId
  | .updateHeartbeatStatus g _ _ => g
  | .updateSuppress g _ _ _ => g
  | .processAppendEntriesReply g _ _ _ _ => g
  | .heartbeatRequestError g => g
  | .logMissingGroup g => g

/-- A registry transformer used to state piggyback elision: the same
registry with the voter `v` struck from every configuration. -/
def eraseVoter (v : VNode) (p : ConsensusState) : ConsensusState :=
  { p with voters := p.voters.filter (fun w => w ≠ v) }

/-- The four state calls the error branch of `process_reply` makes for
one present group (heartbeat_manager.cc lines 247–257). -/
def errorGroupActions (g : GroupId) (rm : FollowerRequestMeta)
    (n : NodeId) (e : TransportError) : List ReplyAction :=
  [.updateHeartbeatStatus g rm.follower_vnode false,
   .updateSuppress g rm.follower_vnode rm.seq false,
   .processAppendEntriesReply g n (.error e) rm.seq rm.dirty_offset,
   .heartbeatRequestError g]

/-- Concrete fixture: a leader of group 1 on node 5 whose follower node
7 appears at two distinct revisions, so both voters land in the same
per-node pending list. -/
def gFixtureA : ConsensusState :=
  { meta := ⟨1, 10, 2, 9, 2⟩
    isLeader := true
    selfVNode := ⟨5, 0⟩
    voters := [⟨5, 0⟩, ⟨7, 1⟩, ⟨7, 2⟩]
    suppressed := fun _ => false
    lastAppendTimestamp := fun _ => 0
    nextSeq := fun v => 40 + v.id + v.revision.natAbs
    shouldReconnect := fun v => v = ⟨7, 1⟩ }

/-- Concrete fixture: a leader of group 2 on node 5 whose follower node
9 replicated recently (timestamp 950), eliding its heartbeat at
`now = 1000, interval = 100`. -/
def gFixtureB : ConsensusState :=
  { meta := ⟨2, 20, 3, 19, 3⟩
    isLeader := true
    selfVNode := ⟨5, 0⟩
    voters := [⟨5, 0⟩, ⟨9, 0⟩]
    suppressed := fun _ => false
    lastAppendTimestamp := fun v => if v = ⟨9, 0⟩ then 950 else 0
    nextSeq := fun v => 60 + v.id
    shouldReconnect := fun _ => false }

/-- Concrete fixture: a single-voter leader group (only the self
vnode). -/
def gFixtureSolo : ConsensusState :=
  { meta := ⟨3, 30, 4, 29, 4⟩
    isLeader := true
    selfVNode := ⟨5, 0⟩
    voters := [⟨5, 0⟩]
    suppressed := fun _ => true
    lastAppendTimestamp := fun _ => 10 ^ 6
    nextSeq := fun _ => 77
    shouldReconnect := fun _ => false }

/-- Concrete fixture: the batch fixture A plans for node 7 at
`now = 1000, interval = 100` — two HBMeta for the same group (the two
revisions of node 7), one `meta_map` entry. -/
def nhFixtureA : NodeHeartbeat :=
  { target := 7
    request := [⟨⟨1, 10, 2, 9, 2⟩, ⟨5, 0⟩, ⟨7, 1⟩⟩,
                ⟨⟨1, 10, 2, 9, 2⟩, ⟨5, 0⟩, ⟨7, 2⟩⟩]
    meta_map := [(1, ⟨48, 9, ⟨7, 1⟩⟩)] }

/-- Concrete fixture: a bookkeeping map naming one registered group (1)
and one group deregistered mid-flight (99). -/
def mmFixture : List (GroupId × FollowerRequestMeta) :=
  [(1, ⟨48, 9, ⟨7, 1⟩⟩), (99, ⟨5, 0, ⟨9, 0⟩⟩)]

/-- Concrete fixture: the self-targeted batch fixture A plans for node
5 at `now = 1000, interval = 100`. -/
def nhFixtureSelf : NodeHeartbeat :=
  { target := 5
    request := [⟨⟨1, 10, 2, 9, 2⟩, ⟨5, 0⟩, vnodeDefault⟩]
    meta_map := [(1, ⟨0, 9, vnodeDefault⟩)] }

/-! ## Theorems -/

/-- C3: processing the voter equal to `group.self()` appends an HBMeta
with sequence number 0 to the self node's pending list unconditionally —
the right-hand side consults neither the suppression flag nor
`last_append_timestamp` — and a single-voter leader group therefore
produces exactly its self-heartbeat on every tick regardless of prior
activity. -/
theorem self_beat_unconditional (ptr : ConsensusState) (lh : Int)
    (st : PlanState) (tr : List PlanAction) (g : ConsensusState)
    (now interval : Int) (hL : g.isLeader = true)
    (hv : g.voters = [g.selfVNode]) :
    maybe_create_follower_request ptr lh (st, tr) ptr.selfVNode =
      ({ st with pending := (pendingAppend st.pending ptr.selfVNode.id
           (⟨ptr.meta, ptr.selfVNode, vnodeDefault⟩, 0)) },
       tr ++ [.appendPending ptr.selfVNode ptr.selfVNode.id
           ⟨ptr.meta, ptr.selfVNode, vnodeDefault⟩ 0]) ∧
    (requests_for_range [g] now interval).1.requests =
      [⟨g.selfVNode.id,
        [⟨g.meta, g.selfVNode, vnodeDefault⟩],
        [(g.meta.group, ⟨0, g.meta.prev_log_index, vnodeDefault⟩)]⟩] := by
  constructor
  · simp [maybe_create_follower_request]
  · simp [requests_for_range, plan_groups, hv, hL,
      maybe_create_follower_request, buildNodeHeartbeat, build_step,
      pendingAppend, emplace]

/-- Witness for the self-beat theorem at the single-voter fixture. -/
theorem self_beat_unconditional_witness :
    gFixtureSolo.isLeader = true ∧
    gFixtureSolo.voters = [gFixtureSolo.selfVNode] ∧
    (requests_for_range [gFixtureSolo] 1000 100).1.requests =
      [⟨gFixtureSolo.selfVNode.id,
        [⟨gFixtureSolo.meta, gFixtureSolo.selfVNode, vnodeDefault⟩],
        [(gFixtureSolo.meta.group,
          ⟨0, gFixtureSolo.meta.prev_log_index, vnodeDefault⟩)]⟩] :=
  ⟨by decide, by decide,
   (self_beat_unconditional gFixtureA 0 ⟨[], []⟩ [] gFixtureSolo 1000 100
      (by decide) (by decide)).2⟩

/-- C8: for a non-self, non-suppressed, non-elided voter the planner
allocates the sequence number, turns suppression on with that sequence,
then appends the HBMeta to the voter's per-node pending list, in that
order; the voter's node id joins the reconnect set exactly when
`should_reconnect_follower` returns true. -/
theorem follower_request_order (ptr : ConsensusState) (lh : Int)
    (st : PlanState) (tr : List PlanAction) (rni : VNode)
    (hself : rni ≠ ptr.selfVNode)
    (hsup : ptr.suppressed rni = false)
    (helide : ptr.lastAppendTimestamp rni ≤ lh) :
    maybe_create_follower_request ptr lh (st, tr) rni =
      ({ pending := (pendingAppend st.pending rni.id
           (⟨ptr.meta, ptr.selfVNode, rni⟩, ptr.nextSeq rni)),
         reconnect := (if ptr.shouldReconnect rni
           then insertNode st.reconnect rni.id else st.reconnect) },
       tr ++ ([.nextFollowerSeq ptr.group rni,
               .suppressOn ptr.group rni (ptr.nextSeq rni),
               .appendPending rni rni.id ⟨ptr.meta, ptr.selfVNode, rni⟩
                 (ptr.nextSeq rni)] ++
              if ptr.shouldReconnect rni then [.addReconnect rni.id]
              else [])) ∧
    (rni.id ∈ (maybe_create_follower_request ptr lh (st, tr) rni).1.reconnect
      ↔ (ptr.shouldReconnect rni = true ∨ rni.id ∈ st.reconnect)) := by
  have hnot : ¬ ptr.lastAppendTimestamp rni > lh := not_lt.mpr helide
  have hmain :
      maybe_create_follower_request ptr lh (st, tr) rni =
        ({ pending := (pendingAppend st.pending rni.id
             (⟨ptr.meta, ptr.selfVNode, rni⟩, ptr.nextSeq rni)),
           reconnect := (if ptr.shouldReconnect rni
             then insertNode st.reconnect rni.id else st.reconnect) },
         tr ++ ([.nextFollowerSeq ptr.group rni,
                 .suppressOn ptr.group rni (ptr.nextSeq rni),
                 .appendPending rni rni.id ⟨ptr.meta, ptr.selfVNode, rni⟩
                   (ptr.nextSeq rni)] ++
                if ptr.shouldReconnect rni then [.addReconnect rni.id]
                else [])) := by
    simp [maybe_create_follower_request, hself, hsup, hnot]
  refine ⟨hmain, ?_⟩
  rw [hmain]
  by_cases hrc : ptr.shouldReconnect rni
  · simp [hrc, insertNode]
    by_cases hm : rni.id ∈ st.reconnect <;> simp [hm]
  · simp [hrc]

/-- Witness for the follower-order theorem: node 7, revision 1 of
fixture A (which also asks for a reconnect). -/
theorem follower_request_order_witness :
    ((⟨7, 1⟩ : VNode) ≠ gFixtureA.selfVNode ∧
     gFixtureA.suppressed ⟨7, 1⟩ = false ∧
     gFixtureA.lastAppendTimestamp ⟨7, 1⟩ ≤ 900) ∧
    ((⟨7, 1⟩ : VNode).id ∈
        (maybe_create_follower_request gFixtureA 900 (⟨[], []⟩, [])
          ⟨7, 1⟩).1.reconnect
      ↔ (gFixtureA.shouldReconnect ⟨7, 1⟩ = true ∨
         (⟨7, 1⟩ : VNode).id ∈ PlanState.reconnect ⟨[], []⟩)) :=
  ⟨⟨by decide, by decide, by decide⟩,
   (follower_request_order gFixtureA 900 ⟨[], []⟩ [] ⟨7, 1⟩
      (by decide) (by decide) (by decide)).2⟩

/-- An elided voter (non-self, not suppressed, fresh append) leaves
both the planner state and the trace untouched. -/
lemma mcfr_elided (ptr : ConsensusState) (lh : Int)
    (acc : PlanState × List PlanAction) (v : VNode)
    (hself : v ≠ ptr.selfVNode) (hsup : ptr.suppressed v = false)
    (h : ptr.lastAppendTimestamp v > lh) :
    maybe_create_follower_request ptr lh acc v = acc := by
  obtain ⟨st, tr⟩ := acc
  simp [maybe_create_follower_request, hself, hsup, h]

/-- The per-voter body only reads fields other than `voters`, so it is
unchanged by striking a voter from the configuration. -/
lemma mcfr_eraseVoter (v : VNode) (ptr : ConsensusState) (lh : Int)
    (acc : PlanState × List PlanAction) (w : VNode) :
    maybe_create_follower_request (eraseVoter v ptr) lh acc w =
      maybe_create_follower_request ptr lh acc w := by
  obtain ⟨st, tr⟩ := acc
  simp [maybe_create_follower_request, eraseVoter, ConsensusState.group]

/-- Folding the per-voter body over a voter list in which `v` is always
elided equals folding over the list with `v` struck out. -/
lemma foldl_mcfr_filter (ptr : ConsensusState) (lh : Int) (v : VNode)
    (hself : v ≠ ptr.selfVNode) (hsup : ptr.suppressed v = false)
    (h : ptr.lastAppendTimestamp v > lh) :
    ∀ (vs : List VNode) (acc : PlanState × List PlanAction),
      vs.foldl (maybe_create_follower_request ptr lh) acc =
        (vs.filter (fun w => w ≠ v)).foldl
          (maybe_create_follower_request ptr lh) acc := by
  intro vs
  induction vs with
  | nil => intro acc; rfl
  | cons w ws ih =>
      intro acc
      by_cases hw : w = v
      · subst hw
        simp only [List.foldl_cons, List.filter_cons, decide_not,
          decide_eq_true_eq]
        rw [mcfr_elided ptr lh acc w hself hsup h]
        simp [ih]
      · simp only [List.foldl_cons, List.filter_cons]
        have : (decide ¬w = v) = true := by simp [hw]
        rw [this]
        simp only [if_true, List.foldl_cons]
        exact ih _

/-- Every action the per-voter body appends to the trace concerns the
voter being processed (or, for reconnect insertion, no voter). -/
lemma mcfr_trace_extend (ptr : ConsensusState) (lh : Int)
    (acc : PlanState × List PlanAction) (w : VNode) :
    ∃ neu, (maybe_create_follower_request ptr lh acc w).2 = acc.2 ++ neu ∧
      ∀ a ∈ neu, planActionVNode a = some w ∨ planActionVNode a = none := by
  obtain ⟨st, tr⟩ := acc
  by_cases h1 : w = ptr.selfVNode
  · exact ⟨[.appendPending w w.id ⟨ptr.meta, w, vnodeDefault⟩ 0],
      by simp [maybe_create_follower_request, h1],
      by simp [planActionVNode]⟩
  · by_cases h2 : ptr.suppressed w
    · exact ⟨[], by simp [maybe_create_follower_request, h1, h2], by simp⟩
    · by_cases h3 : ptr.lastAppendTimestamp w > lh
      · exact ⟨[], by simp [maybe_create_follower_request, h1, h2, h3],
          by simp⟩
      · by_cases hrc : ptr.shouldReconnect w
        · exact ⟨[.nextFollowerSeq ptr.group w,
              .suppressOn ptr.group w (ptr.nextSeq w),
              .appendPending w w.id ⟨ptr.meta, ptr.selfVNode, w⟩
                (ptr.nextSeq w),
              .addReconnect w.id],
            by simp [maybe_create_follower_request, h1, h2, h3, hrc],
            by simp [planActionVNode]⟩
        · exact ⟨[.nextFollowerSeq ptr.group w,
              .suppressOn ptr.group w (ptr.nextSeq w),
              .appendPending w w.id ⟨ptr.meta, ptr.selfVNode, w⟩
                (ptr.nextSeq w)],
            by simp [maybe_create_follower_request, h1, h2, h3, hrc],
            by simp [planActionVNode]⟩

/-- Folding over a group's voters never emits a trace action for a
voter that is elided throughout the fold. -/
lemma foldl_mcfr_trace_not_v (ptr : ConsensusState) (lh : Int) (v : VNode) :
    ∀ (vs : List VNode) (acc : PlanState × List PlanAction),
      (v ∈ vs →
        v ≠ ptr.selfVNode ∧ ptr.suppressed v = false ∧
        ptr.lastAppendTimestamp v > lh) →
      (∀ a ∈ acc.2, planActionVNode a ≠ some v) →
      ∀ a ∈ (vs.foldl (maybe_create_follower_request ptr lh) acc).2,
        planActionVNode a ≠ some v := by
  intro vs
  induction vs with
  | nil => intro acc _ hacc; exact hacc
  | cons w ws ih =>
      intro acc hcond hacc
      simp only [List.foldl_cons]
      by_cases hw : w = v
      · subst hw
        obtain ⟨h1, h2, h3⟩ := hcond (List.mem_cons_self _ _)
        rw [mcfr_elided ptr lh acc w h1 h2 h3]
        exact ih acc (fun hv => hcond (List.mem_cons_of_mem _ hv)) hacc
      · apply ih _ (fun hv => hcond (List.mem_cons_of_mem _ hv))
        obtain ⟨neu, heq, hneu⟩ := mcfr_trace_extend ptr lh acc w
        rw [heq]
        intro a ha
        rcases List.mem_append.mp ha with h | h
        · exact hacc a h
        · rcases hneu a h with h' | h'
          · rw [h']; simp [hw]
          · rw [h']; simp

/-- Folding the planner over the registry is unchanged by striking an
everywhere-elided voter from every configuration. -/
lemma plan_groups_erase (v : VNode) (lh : Int) :
    ∀ (c : List ConsensusState) (acc : PlanState × List PlanAction),
      (∀ p ∈ c, p.isLeader = true → v ∈ p.voters →
        v ≠ p.selfVNode ∧ p.suppressed v = false ∧
        p.lastAppendTimestamp v > lh) →
      c.foldl
        (fun acc ptr =>
          if ptr.isLeader then
            ptr.voters.foldl (maybe_create_follower_request ptr lh) acc
          else acc) acc =
      (c.map (eraseVoter v)).foldl
        (fun acc ptr =>
          if ptr.isLeader then
            ptr.voters.foldl (maybe_create_follower_request ptr lh) acc
          else acc) acc := by
  intro c
  induction c with
  | nil => intro acc _; rfl
  | cons p ps ih =>
      intro acc H
      simp only [List.map_cons, List.foldl_cons]
      have hL : (eraseVoter v p).isLeader = p.isLeader := rfl
      have hsame :
          (if (eraseVoter v p).isLeader then
            (eraseVoter v p).voters.foldl
              (maybe_create_follower_request (eraseVoter v p) lh) acc
          else acc) =
          (if p.isLeader then
            p.voters.foldl (maybe_create_follower_request p lh) acc
          else acc) := by
        rw [hL]
        by_cases hld : p.isLeader
        · simp only [hld, if_true]
          have hvoters : (eraseVoter v p).voters =
              p.voters.filter (fun w => w ≠ v) := rfl
          rw [hvoters]
          have hfun : ∀ (a : PlanState × List PlanAction)
              (b : VNode), b ∈ p.voters.filter (fun w => w ≠ v) →
              maybe_create_follower_request (eraseVoter v p) lh a b =
              maybe_create_follower_request p lh a b := by
            intro a b _
            exact mcfr_eraseVoter v p lh a b
          rw [List.foldl_ext _ _ acc hfun]
          by_cases hv : v ∈ p.voters
          · obtain ⟨h1, h2, h3⟩ := H p (List.mem_cons_self _ _) hld hv
            exact (foldl_mcfr_filter p lh v h1 h2 h3 p.voters acc).symm
          · congr 1
            apply List.filter_eq_self.mpr
            intro a ha
            simp only [decide_not, Bool.not_eq_true', decide_eq_false_iff_not]
            intro hc
            exact hv (hc ▸ ha)
        · simp [hld]
      rw [hsame]
      exact ih _ (fun q hq => H q (List.mem_cons_of_mem _ hq))

/-- Folding the planner over the registry never emits a trace action
for an everywhere-elided voter. -/
lemma plan_groups_trace_not_v (v : VNode) (lh : Int) :
    ∀ (c : List ConsensusState) (acc : PlanState × List PlanAction),
      (∀ p ∈ c, p.isLeader = true → v ∈ p.voters →
        v ≠ p.selfVNode ∧ p.suppressed v = false ∧
        p.lastAppendTimestamp v > lh) →
      (∀ a ∈ acc.2, planActionVNode a ≠ some v) →
      ∀ a ∈ (c.foldl
        (fun acc ptr =>
          if ptr.isLeader then
            ptr.voters.foldl (maybe_create_follower_request ptr lh) acc
          else acc) acc).2,
        planActionVNode a ≠ some v := by
  intro c
  induction c with
  | nil => intro acc _ hacc; exact hacc
  | cons p ps ih =>
      intro acc H hacc
      simp only [List.foldl_cons]
      apply ih _ (fun q hq => H q (List.mem_cons_of_mem _ hq))
      by_cases hld : p.isLeader
      · simp only [hld, if_true]
        apply foldl_mcfr_trace_not_v p lh v p.voters acc
        · intro hv
          exact H p (List.mem_cons_self _ _) hld hv
        · exact hacc
      · simpa [hld] using hacc

/-- C2: a non-self voter of a leader group that is not suppressed and
whose `last_append_timestamp` is strictly after `now - interval` leaves
the tick entirely unchanged: the planner output equals the output with
that voter struck from every configuration, and no trace action — no
sequence allocation, no suppression write, no pending-list append — is
emitted for it. -/
theorem piggyback_elision (c : List ConsensusState) (now interval : Int)
    (v : VNode)
    (H : ∀ p ∈ c, p.isLeader = true → v ∈ p.voters →
      v ≠ p.selfVNode ∧ p.suppressed v = false ∧
      p.lastAppendTimestamp v > now - interval) :
    requests_for_range c now interval =
      requests_for_range (c.map (eraseVoter v)) now interval ∧
    ∀ a ∈ (requests_for_range c now interval).2,
      planActionVNode a ≠ some v := by
  constructor
  · cases c with
    | nil => rfl
    | cons p ps =>
        simp only [requests_for_range, List.isEmpty_cons, if_false,
          Bool.false_eq_true]
        rw [show plan_groups (p :: ps) (now - interval) =
            plan_groups ((p :: ps).map (eraseVoter v)) (now - interval) from
          plan_groups_erase v (now - interval) (p :: ps) _ H]
        simp [List.map_cons]
  · cases c with
    | nil => intro a ha; simp [requests_for_range] at ha
    | cons p ps =>
        intro a ha
        simp only [requests_for_range, List.isEmpty_cons, if_false,
          Bool.false_eq_true] at ha
        exact plan_groups_trace_not_v v (now - interval) (p :: ps)
          (⟨[], []⟩, []) H (by simp) a ha

/-- Witness for piggyback elision: in fixture B, follower node 9
replicated at time 950 with threshold 900, so the tick output matches
the registry with that voter removed and its trace never names it. -/
theorem piggyback_elision_witness :
    (∀ p ∈ [gFixtureB], p.isLeader = true → (⟨9, 0⟩ : VNode) ∈ p.voters →
      (⟨9, 0⟩ : VNode) ≠ p.selfVNode ∧ p.suppressed ⟨9, 0⟩ = false ∧
      p.lastAppendTimestamp ⟨9, 0⟩ > 1000 - 100) ∧
    (requests_for_range [gFixtureB] 1000 100 =
      requests_for_range ([gFixtureB].map (eraseVoter ⟨9, 0⟩)) 1000 100 ∧
    ∀ a ∈ (requests_for_range [gFixtureB] 1000 100).2,
      planActionVNode a ≠ some ⟨9, 0⟩) :=
  ⟨by decide, piggyback_elision [gFixtureB] 1000 100 ⟨9, 0⟩ (by decide)⟩

/-- Key membership after an `emplace`. -/
lemma mem_emplace_keys {β : Type} (m : List (GroupId × β)) (k a : GroupId)
    (v : β) :
    a ∈ (emplace m k v).map Prod.fst ↔ a ∈ m.map Prod.fst ∨ a = k := by
  unfold emplace
  by_cases h : (m.any fun p => decide (p.1 = k)) = true
  · simp only [h, if_true]
    have hk : k ∈ m.map Prod.fst := by
      rcases List.any_eq_true.mp h with ⟨p, hp, hpk⟩
      rw [decide_eq_true_eq] at hpk
      exact hpk ▸ List.mem_map_of_mem _ hp
    constructor
    · exact Or.inl
    · rintro (h' | rfl)
      · exact h'
      · exact hk
  · simp [h]

/-- An `emplace` preserves distinctness of the keys. -/
lemma nodup_emplace_keys {β : Type} (m : List (GroupId × β)) (k : GroupId)
    (v : β) (h : (m.map Prod.fst).Nodup) :
    ((emplace m k v).map Prod.fst).Nodup := by
  unfold emplace
  by_cases hk : (m.any fun p => decide (p.1 = k)) = true
  · simpa [hk] using h
  · simp only [hk, if_false, Bool.false_eq_true, List.map_append,
      List.map_cons, List.map_nil]
    rw [List.nodup_append]
    refine ⟨h, List.nodup_singleton _, ?_⟩
    intro a ha hb
    rcases List.mem_singleton.mp hb with rfl
    rcases List.mem_map.mp ha with ⟨p, hp, hpk⟩
    exact absurd (List.any_eq_true.mpr ⟨p, hp, by simp [hpk]⟩) hk

/-- Invariant of the collapse loop: the `meta_map` keys are exactly the
groups of the `requests` vector and stay duplicate-free. -/
lemma build_fold_keys :
    ∀ (l : List (HeartbeatMetadata × Nat))
      (acc : List HeartbeatMetadata × List (GroupId × FollowerRequestMeta)),
      (∀ g, g ∈ acc.2.map Prod.fst ↔
        g ∈ acc.1.map (fun hb => hb.meta.group)) →
      (acc.2.map Prod.fst).Nodup →
      (∀ g, g ∈ (l.foldl build_step acc).2.map Prod.fst ↔
        g ∈ (l.foldl build_step acc).1.map (fun hb => hb.meta.group)) ∧
      ((l.foldl build_step acc).2.map Prod.fst).Nodup := by
  intro l
  induction l with
  | nil => intro acc h1 h2; exact ⟨h1, h2⟩
  | cons e es ih =>
      intro acc h1 h2
      simp only [List.foldl_cons]
      apply ih
      · intro g
        simp only [build_step]
        rw [mem_emplace_keys]
        simp only [List.map_append, List.map_cons, List.map_nil,
          List.mem_append, List.mem_singleton]
        rw [h1 g]
      · exact nodup_emplace_keys _ _ _ h2

/-- Unfolded form of the collapse loop for one pending node. -/
lemma buildNodeHeartbeat_eq (p : NodeId × List (HeartbeatMetadata × Nat)) :
    buildNodeHeartbeat p =
      ⟨p.1, (p.2.foldl build_step ([], [])).1,
        (p.2.foldl build_step ([], [])).2⟩ := by
  unfold buildNodeHeartbeat
  rcases h : p.2.foldl build_step ([], []) with ⟨a, b⟩
  simp [h]

/-- C1: for every `NodeHeartbeat` the planner produces, the set of
groups occurring in its `request` equals the key set of its `meta_map`,
and those keys are duplicate-free (each group appears exactly once),
even when two voters of one group share a node id and land in the same
per-node pending list. -/
theorem meta_map_matches_request (c : List ConsensusState)
    (now interval : Int) (nh : NodeHeartbeat)
    (h : nh ∈ (requests_for_range c now interval).1.requests) :
    (∀ g : GroupId,
      (∃ hb ∈ nh.request, hb.meta.group = g) ↔
        g ∈ nh.meta_map.map Prod.fst) ∧
    (nh.meta_map.map Prod.fst).Nodup := by
  by_cases hc : c.isEmpty
  · simp [requests_for_range, hc] at h
  · simp only [requests_for_range, hc, if_false, Bool.false_eq_true] at h
    rcases List.mem_map.mp h with ⟨p, _, rfl⟩
    rw [buildNodeHeartbeat_eq]
    obtain ⟨h1, h2⟩ := build_fold_keys p.2 ([], []) (by simp) (by simp)
    refine ⟨?_, h2⟩
    intro g
    rw [h1 g]
    exact List.mem_map.symm

/-- Witness for the meta-map invariant at the batch of fixture A headed
to node 7, where two voters of group 1 share the node id. -/
theorem meta_map_matches_request_witness :
    nhFixtureA ∈ (requests_for_range [gFixtureA] 1000 100).1.requests ∧
    ((∀ g : GroupId,
      (∃ hb ∈ nhFixtureA.request, hb.meta.group = g) ↔
        g ∈ nhFixtureA.meta_map.map Prod.fst) ∧
    (nhFixtureA.meta_map.map Prod.fst).Nodup) :=
  ⟨by decide,
   meta_map_matches_request [gFixtureA] 1000 100 nhFixtureA (by decide)⟩

/-- Keys after a per-node pending append: unchanged if the node already
has a slot, extended by the node otherwise. -/
lemma pendingAppend_keys (pb : List (NodeId × List (HeartbeatMetadata × Nat)))
    (n : NodeId) (e : HeartbeatMetadata × Nat) :
    (pendingAppend pb n e).map Prod.fst =
      if n ∈ pb.map Prod.fst then pb.map Prod.fst
      else pb.map Prod.fst ++ [n] := by
  induction pb with
  | nil => simp [pendingAppend]
  | cons p rest ih =>
      obtain ⟨k, l⟩ := p
      by_cases h : k = n
      · subst h
        simp [pendingAppend]
      · have hnk : ¬ n = k := fun hc => h hc.symm
        simp only [pendingAppend, if_neg h, List.map_cons, ih]
        by_cases h2 : n ∈ rest.map Prod.fst
        · simp [h2, List.mem_cons, hnk]
        · simp [h2, List.mem_cons, hnk]

/-- A per-node pending append keeps the node keys duplicate-free. -/
lemma nodup_pendingAppend
    (pb : List (NodeId × List (HeartbeatMetadata × Nat)))
    (n : NodeId) (e : HeartbeatMetadata × Nat)
    (h : (pb.map Prod.fst).Nodup) :
    ((pendingAppend pb n e).map Prod.fst).Nodup := by
  rw [pendingAppend_keys]
  by_cases h2 : n ∈ pb.map Prod.fst
  · simpa [h2] using h
  · simp only [h2, if_false]
    rw [List.nodup_append]
    refine ⟨h, List.nodup_singleton _, ?_⟩
    intro a ha hb
    rw [List.mem_singleton.mp hb] at ha
    exact h2 ha

/-- The per-voter body either leaves `pending_beats` alone or performs
one per-node append. -/
lemma mcfr_pending_shape (ptr : ConsensusState) (lh : Int)
    (acc : PlanState × List PlanAction) (w : VNode) :
    (maybe_create_follower_request ptr lh acc w).1.pending =
        acc.1.pending ∨
    ∃ n e, (maybe_create_follower_request ptr lh acc w).1.pending =
        pendingAppend acc.1.pending n e := by
  obtain ⟨st, tr⟩ := acc
  by_cases h1 : w = ptr.selfVNode
  · exact Or.inr ⟨w.id, (⟨ptr.meta, w, vnodeDefault⟩, 0),
      by simp [maybe_create_follower_request, h1]⟩
  · by_cases h2 : ptr.suppressed w
    · exact Or.inl (by simp [maybe_create_follower_request, h1, h2])
    · by_cases h3 : ptr.lastAppendTimestamp w > lh
      · exact Or.inl (by simp [maybe_create_follower_request, h1, h2, h3])
      · exact Or.inr ⟨w.id, (⟨ptr.meta, ptr.selfVNode, w⟩, ptr.nextSeq w),
          by simp [maybe_create_follower_request, h1, h2, h3]⟩

/-- The per-voter body either leaves the reconnect set alone or inserts
one node id. -/
lemma mcfr_reconnect_shape (ptr : ConsensusState) (lh : Int)
    (acc : PlanState × List PlanAction) (w : VNode) :
    (maybe_create_follower_request ptr lh acc w).1.reconnect =
        acc.1.reconnect ∨
    ∃ n, (maybe_create_follower_request ptr lh acc w).1.reconnect =
        insertNode acc.1.reconnect n := by
  obtain ⟨st, tr⟩ := acc
  by_cases h1 : w = ptr.selfVNode
  · exact Or.inl (by simp [maybe_create_follower_request, h1])
  · by_cases h2 : ptr.suppressed w
    · exact Or.inl (by simp [maybe_create_follower_request, h1, h2])
    · by_cases h3 : ptr.lastAppendTimestamp w > lh
      · exact Or.inl (by simp [maybe_create_follower_request, h1, h2, h3])
      · by_cases h4 : ptr.shouldReconnect w
        · exact Or.inr ⟨w.id,
            by simp [maybe_create_follower_request, h1, h2, h3, h4]⟩
        · exact Or.inl
            (by simp [maybe_create_follower_request, h1, h2, h3, h4])

/-- An `insertNode` keeps the set duplicate-free. -/
lemma nodup_insertNode (s : List NodeId) (n : NodeId) (h : s.Nodup) :
    (insertNode s n).Nodup := by
  unfold insertNode
  by_cases h2 : n ∈ s
  · simpa [h2] using h
  · simp only [h2, if_false]
    rw [List.nodup_append]
    refine ⟨h, List.nodup_singleton _, ?_⟩
    intro a ha hb
    rw [List.mem_singleton.mp hb] at ha
    exact h2 ha

/-- Throughout the planner fold, the pending-beat node keys and the
reconnect set stay duplicate-free. -/
lemma plan_groups_nodup (lh : Int) (c : List ConsensusState) :
    ((plan_groups c lh).1.pending.map Prod.fst).Nodup ∧
    (plan_groups c lh).1.reconnect.Nodup := by
  have main : ∀ (c : List ConsensusState) (acc : PlanState × List PlanAction),
      (acc.1.pending.map Prod.fst).Nodup → acc.1.reconnect.Nodup →
      ((c.foldl
        (fun acc ptr =>
          if ptr.isLeader then
            ptr.voters.foldl (maybe_create_follower_request ptr lh) acc
          else acc) acc).1.pending.map Prod.fst).Nodup ∧
      (c.foldl
        (fun acc ptr =>
          if ptr.isLeader then
            ptr.voters.foldl (maybe_create_follower_request ptr lh) acc
          else acc) acc).1.reconnect.Nodup := by
    have voters : ∀ (ptr : ConsensusState) (vs : List VNode)
        (acc : PlanState × List PlanAction),
        (acc.1.pending.map Prod.fst).Nodup → acc.1.reconnect.Nodup →
        ((vs.foldl (maybe_create_follower_request ptr lh) acc).1.pending.map
          Prod.fst).Nodup ∧
        (vs.foldl (maybe_create_follower_request ptr lh)
          acc).1.reconnect.Nodup := by
      intro ptr vs
      induction vs with
      | nil => intro acc h1 h2; exact ⟨h1, h2⟩
      | cons w ws ih =>
          intro acc h1 h2
          simp only [List.foldl_cons]
          apply ih
          · rcases mcfr_pending_shape ptr lh acc w with h | ⟨n, e, h⟩
            · rwa [h]
            · rw [h]; exact nodup_pendingAppend _ _ _ h1
          · rcases mcfr_reconnect_shape ptr lh acc w with h | ⟨n, h⟩
            · rwa [h]
            · rw [h]; exact nodup_insertNode _ _ h2
    intro c
    induction c with
    | nil => intro acc h1 h2; exact ⟨h1, h2⟩
    | cons p ps ih =>
        intro acc h1 h2
        simp only [List.foldl_cons]
        by_cases hld : p.isLeader
        · simp only [hld, if_true]
          obtain ⟨h1s, h2s⟩ := voters p p.voters acc h1 h2
          exact ih _ h1s h2s
        · simp only [hld, if_false, Bool.false_eq_true]
          exact ih _ h1 h2
  exact main c (⟨[], []⟩, []) (by simp) (by simp)

/-- With duplicate-free keys, an association-list member is found. -/
lemma alistFind_of_mem_nodup {α β : Type} [DecidableEq α]
    (pb : List (α × β)) (h : (pb.map Prod.fst).Nodup) (k : α) (l : β)
    (hm : (k, l) ∈ pb) : alistFind? pb k = some l := by
  induction pb with
  | nil => cases hm
  | cons p rest ih =>
      rcases List.mem_cons.mp hm with rfl | hm'
      · simp [alistFind?, List.find?]
      · have hk : k ∈ rest.map Prod.fst :=
          List.mem_map.mpr ⟨(k, l), hm', rfl⟩
        have hp : p.1 ≠ k := by
          intro hc
          exact (List.nodup_cons.mp (by simpa using h)).1 (hc ▸ hk)
        have hr := ih (List.nodup_cons.mp (by simpa using h)).2 hm'
        simpa [alistFind?, List.find?, hp] using hr

/-- The collapse loop preserves the vector order of the pending list. -/
lemma build_fold_requests :
    ∀ (l : List (HeartbeatMetadata × Nat))
      (acc : List HeartbeatMetadata × List (GroupId × FollowerRequestMeta)),
      (l.foldl build_step acc).1 = acc.1 ++ l.map Prod.fst := by
  intro l
  induction l with
  | nil => intro acc; simp
  | cons e es ih =>
      intro acc
      simp only [List.foldl_cons, ih, build_step, List.map_cons]
      simp [List.append_assoc]

/-- C7: one planning pass yields at most one `NodeHeartbeat` per
destination node, and each batch's `request` lists, in pending-list
insertion order, exactly the HBMeta collected for that node across all
groups. -/
theorem one_batch_per_target (c : List ConsensusState) (now interval : Int) :
    (((requests_for_range c now interval).1.requests.map
      (fun nh => nh.target)).Nodup) ∧
    ∀ nh ∈ (requests_for_range c now interval).1.requests,
      ∃ l, alistFind? (plan_groups c (now - interval)).1.pending nh.target =
          some l ∧
        nh.request = l.map Prod.fst := by
  by_cases hc : c.isEmpty
  · simp [requests_for_range, hc]
  · simp only [requests_for_range, hc, if_false, Bool.false_eq_true]
    obtain ⟨hnd, _⟩ := plan_groups_nodup (now - interval) c
    constructor
    · rw [List.map_map]
      have : ((fun nh => nh.target) ∘ buildNodeHeartbeat) =
          fun (p : NodeId × List (HeartbeatMetadata × Nat)) => p.1 := by
        funext p
        rw [Function.comp_apply, buildNodeHeartbeat_eq]

      rw [this]
      exact hnd
    · intro nh hnh
      rcases List.mem_map.mp hnh with ⟨p, hp, rfl⟩
      refine ⟨p.2, ?_, ?_⟩
      · rw [buildNodeHeartbeat_eq]
        exact alistFind_of_mem_nodup _ hnd p.1 p.2 (by simpa using hp)
      · rw [buildNodeHeartbeat_eq]
        simpa using build_fold_requests p.2 ([], [])

/-- Witness for the batching theorem on the two-group registry: node 7
gets exactly the batch of fixture A. -/
theorem one_batch_per_target_witness :
    nhFixtureA ∈
      (requests_for_range [gFixtureA, gFixtureB] 1000 100).1.requests ∧
    ∃ l, alistFind?
        (plan_groups [gFixtureA, gFixtureB] (1000 - 100)).1.pending
        nhFixtureA.target = some l ∧
      nhFixtureA.request = l.map Prod.fst :=
  ⟨by decide,
   (one_batch_per_target [gFixtureA, gFixtureB] 1000 100).2 nhFixtureA
     (by decide)⟩

/-- Appending through a fold is binding. -/
lemma foldl_append_bind {α β : Type} (f : α → List β) :
    ∀ (l : List α) (acc : List β),
      l.foldl (fun acc x => acc ++ f x) acc = acc ++ l.flatMap f := by
  intro l
  induction l with
  | nil => intro acc; simp
  | cons x xs ih =>
      intro acc
      simp only [List.foldl_cons, ih, List.flatMap_cons]
      simp [List.append_assoc]

/-- The error branch of the reply router, written as one block of
actions per bookkeeping entry. -/
lemma process_reply_error_eq (reg : List ConsensusState) (n : NodeId)
    (groups : List (GroupId × FollowerRequestMeta)) (e : TransportError) :
    process_reply_error reg n groups e =
      groups.flatMap (fun p =>
        if registryHas reg p.1 then errorGroupActions p.1 p.2 n e
        else [.logMissingGroup p.1]) := by
  unfold process_reply_error
  have hbody : ∀ (acc : List ReplyAction)
      (p : GroupId × FollowerRequestMeta), p ∈ groups →
      (let (g, req_meta) := p
       if registryHas reg g then
        acc ++ [.updateHeartbeatStatus g req_meta.follower_vnode false,
                .updateSuppress g req_meta.follower_vnode req_meta.seq false,
                .processAppendEntriesReply g n (.error e) req_meta.seq
                  req_meta.dirty_offset,
                .heartbeatRequestError g]
       else acc ++ [.logMissingGroup g]) =
      acc ++ (if registryHas reg p.1 then errorGroupActions p.1 p.2 n e
        else [.logMissingGroup p.1]) := by
    intro acc p _
    obtain ⟨g, rm⟩ := p
    by_cases hr : registryHas reg g <;> simp [hr, errorGroupActions]
  rw [List.foldl_ext _ _ [] hbody]
  exact foldl_append_bind _ groups []

/-- Filtering a per-group block concatenation down to one group picks
exactly that group's block, provided keys are duplicate-free and each
block only names its own group. -/
lemma filter_bind_group (f : GroupId × FollowerRequestMeta → List ReplyAction)
    (g : GroupId) (rm : FollowerRequestMeta) :
    ∀ (groups : List (GroupId × FollowerRequestMeta)),
      (∀ p ∈ groups, ∀ a ∈ f p, replyActionGroup a = p.1) →
      ((groups.map Prod.fst).Nodup) →
      (g, rm) ∈ groups →
      (groups.flatMap f).filter (fun a => replyActionGroup a = g) =
        f (g, rm) := by
  intro groups
  induction groups with
  | nil => intro _ _ hm; cases hm
  | cons p rest ih =>
      intro hf hnd hm
      have hnd1 : p.1 ∉ rest.map Prod.fst :=
        (List.nodup_cons.mp (by simpa using hnd)).1
      have hnd2 : (rest.map Prod.fst).Nodup :=
        (List.nodup_cons.mp (by simpa using hnd)).2
      simp only [List.flatMap_cons, List.filter_append]
      rcases List.mem_cons.mp hm with heq | hm'
      · have hpg : p.1 = g := by rw [← heq]
        have h1 : (f p).filter (fun a => replyActionGroup a = g) = f p := by
          apply List.filter_eq_self.mpr
          intro a ha
          simp [hf p (List.mem_cons_self _ _) a ha, hpg]
        have h2 : (rest.flatMap f).filter
            (fun a => replyActionGroup a = g) = [] := by
          apply List.filter_eq_nil_iff.mpr
          intro a ha
          rcases List.mem_flatMap.mp ha with ⟨q, hq, haq⟩
          have : replyActionGroup a = q.1 := hf q (List.mem_cons_of_mem _ hq) a haq
          simp only [this, decide_eq_true_eq]
          intro hc
          exact hnd1 (hpg ▸ hc ▸ List.mem_map_of_mem Prod.fst hq)
        rw [h1, h2, ← heq]
        simp
      · have hg : g ∈ rest.map Prod.fst :=
          List.mem_map.mpr ⟨(g, rm), hm', rfl⟩
        have hpg : p.1 ≠ g := fun hc => hnd1 (hc ▸ hg)
        have h1 : (f p).filter (fun a => replyActionGroup a = g) = [] := by
          apply List.filter_eq_nil_iff.mpr
          intro a ha
          simp [hf p (List.mem_cons_self _ _) a ha, hpg]
        rw [h1, ih (fun q hq => hf q (List.mem_cons_of_mem _ hq)) hnd2 hm']
        simp

/-- C4: on a transport error, the reply router performs, for each
bookkeeping entry whose group is still registered, exactly the four
actions — status false, un-suppress with the recorded seq, propagate the
error with seq and dirty offset, bump the error probe — in that order;
for a deregistered group it only logs and makes no state calls. -/
theorem process_reply_transport_error (reg : List ConsensusState)
    (n : NodeId) (groups : List (GroupId × FollowerRequestMeta))
    (e : TransportError) (g : GroupId) (rm : FollowerRequestMeta)
    (hnd : (groups.map Prod.fst).Nodup) (hm : (g, rm) ∈ groups) :
    process_reply reg n groups (.error e) =
      some (process_reply_error reg n groups e) ∧
    (process_reply_error reg n groups e).filter
        (fun a => replyActionGroup a = g) =
      (if registryHas reg g then errorGroupActions g rm n e
       else [.logMissingGroup g]) := by
  refine ⟨rfl, ?_⟩
  rw [process_reply_error_eq]
  exact filter_bind_group
    (fun p => if registryHas reg p.1 then errorGroupActions p.1 p.2 n e
      else [.logMissingGroup p.1]) g rm groups
    (by
      intro p _ a ha
      by_cases hr : registryHas reg p.1
      · simp only [hr, if_true, errorGroupActions, List.mem_cons,
          List.mem_singleton, List.not_mem_nil, or_false] at ha
        rcases ha with rfl | rfl | rfl | rfl <;> rfl
      · simp only [hr, if_false, Bool.false_eq_true,
          List.mem_singleton] at ha
        rw [ha]; rfl)
    hnd hm

/-- Witness for the transport-error theorem, once at the registered
group 1 and once at the deregistered group 99 of the map fixture. -/
theorem process_reply_transport_error_witness :
    ((mmFixture.map Prod.fst).Nodup ∧
     (1, (⟨48, 9, ⟨7, 1⟩⟩ : FollowerRequestMeta)) ∈ mmFixture ∧
     (99, (⟨5, 0, ⟨9, 0⟩⟩ : FollowerRequestMeta)) ∈ mmFixture) ∧
    (process_reply_error [gFixtureA] 7 mmFixture 3).filter
        (fun a => replyActionGroup a = 1) =
      (if registryHas [gFixtureA] 1
       then errorGroupActions 1 ⟨48, 9, ⟨7, 1⟩⟩ 7 3
       else [.logMissingGroup 1]) ∧
    (process_reply_error [gFixtureA] 7 mmFixture 3).filter
        (fun a => replyActionGroup a = 99) =
      (if registryHas [gFixtureA] 99
       then errorGroupActions 99 ⟨5, 0, ⟨9, 0⟩⟩ 7 3
       else [.logMissingGroup 99]) :=
  ⟨⟨by decide, by decide, by decide⟩,
   (process_reply_transport_error [gFixtureA] 7 mmFixture 3 1
      ⟨48, 9, ⟨7, 1⟩⟩ (by decide) (by decide)).2,
   (process_reply_transport_error [gFixtureA] 7 mmFixture 3 99
      ⟨5, 0, ⟨9, 0⟩⟩ (by decide) (by decide)).2⟩

/-- A key present among an association list's keys is found. -/
lemma alistFind_isSome_of_mem_keys {α β : Type} [DecidableEq α]
    (m : List (α × β)) (k : α) (h : k ∈ m.map Prod.fst) :
    (alistFind? m k).isSome := by
  induction m with
  | nil => cases h
  | cons p rest ih =>
      by_cases hp : p.1 = k
      · simp [alistFind?, List.find?_cons, hp]
      · have hk : k ∈ rest.map Prod.fst := by
          rw [List.map_cons] at h
          rcases List.mem_cons.mp h with hc | hc
          · exact absurd hc.symm hp
          · exact hc
        have := ih hk
        simpa [alistFind?, List.find?_cons, hp] using this

/-- The recursion of the success branch never hits the unchecked
dereference when every reply entry's group is a bookkeeping key. -/
lemma process_reply_success_isSome (reg : List ConsensusState) (n : NodeId)
    (groups : List (GroupId × FollowerRequestMeta)) :
    ∀ (ms : List AppendEntriesReply),
      (∀ m ∈ ms, m.group ∈ groups.map Prod.fst) →
      (process_reply_success reg n groups ms).isSome := by
  intro ms
  induction ms with
  | nil => intro _; simp [process_reply_success]
  | cons m rest ih =>
      intro h
      have hrest := ih (fun q hq => h q (List.mem_cons_of_mem _ hq))
      by_cases hr : registryHas reg m.group
      · have hfind := alistFind_isSome_of_mem_keys groups m.group
          (h m (List.mem_cons_self _ _))
        rcases Option.isSome_iff_exists.mp hfind with ⟨meta, hmeta⟩
        simp [process_reply_success, hr, hmeta, Option.isSome_map, hrest]
      · simp [process_reply_success, hr, Option.isSome_map, hrest]

/-- C10: the success path of the reply router is total under the
precondition that every per-group entry of the reply names a key of the
batch's `meta_map`; without that precondition the unchecked
`groups.find(m.group)` dereference is reached (the `none` branch), as
the concrete second conjunct shows for a registered group absent from
an empty map. -/
theorem success_path_total (reg : List ConsensusState) (n : NodeId)
    (groups : List (GroupId × FollowerRequestMeta))
    (reply : HeartbeatReply)
    (h : ∀ m ∈ reply.meta, m.group ∈ groups.map Prod.fst) :
    (process_reply reg n groups (.ok reply)).isSome ∧
    process_reply [gFixtureA] 5 []
      (.ok ⟨[⟨⟨7, 1⟩, ⟨7, 1⟩, 1, .success⟩]⟩) = none := by
  constructor
  · exact process_reply_success_isSome reg n groups reply.meta h
  · rfl

/-- Witness for success-path totality at the map fixture. -/
theorem success_path_total_witness :
    (∀ m ∈ (HeartbeatReply.mk [⟨⟨7, 1⟩, ⟨7, 1⟩, 1, .success⟩]).meta,
      m.group ∈ mmFixture.map Prod.fst) ∧
    ((process_reply [gFixtureA] 7 mmFixture
      (.ok ⟨[⟨⟨7, 1⟩, ⟨7, 1⟩, 1, .success⟩]⟩)).isSome ∧
    process_reply [gFixtureA] 5 []
      (.ok ⟨[⟨⟨7, 1⟩, ⟨7, 1⟩, 1, .success⟩]⟩) = none) :=
  ⟨by decide,
   success_path_total [gFixtureA] 7 mmFixture
     ⟨[⟨⟨7, 1⟩, ⟨7, 1⟩, 1, .success⟩]⟩ (by decide)⟩

/-- C5: every non-self send carries the outer deadline `now + interval`
(and inner RPC deadline `now + timeout`); an elapsed outer deadline (or
a closed gate) is swallowed with an empty routing trace — no reply
routed, no group state touched — whereas a completed transport error is
routed through the error branch, which does update the group's state. -/
theorem outer_timeout_dropped (reg : List ConsensusState)
    (now interval timeout : Int) (r : NodeHeartbeat) (e : TransportError)
    (g : GroupId) (rm : FollowerRequestMeta)
    (hm : (g, rm) ∈ r.meta_map) (hr : registryHas reg g = true) :
    (∀ oc : SendOutcome,
      (do_heartbeat reg now interval timeout r oc).outerDeadline =
        now + interval ∧
      (do_heartbeat reg now interval timeout r oc).innerDeadline =
        now + timeout) ∧
    (do_heartbeat reg now interval timeout r .outerTimeout).routed =
      some [] ∧
    (do_heartbeat reg now interval timeout r .gateClosed).routed =
      some [] ∧
    (do_heartbeat reg now interval timeout r
        (.completed (.error e))).routed =
      some (process_reply_error reg r.target r.meta_map e) ∧
    ReplyAction.updateHeartbeatStatus g rm.follower_vnode false ∈
      process_reply_error reg r.target r.meta_map e ∧
    ReplyAction.updateSuppress g rm.follower_vnode rm.seq false ∈
      process_reply_error reg r.target r.meta_map e ∧
    ReplyAction.processAppendEntriesReply g r.target (.error e) rm.seq
        rm.dirty_offset ∈
      process_reply_error reg r.target r.meta_map e := by
  refine ⟨fun oc => ⟨rfl, rfl⟩, rfl, rfl, rfl, ?_, ?_, ?_⟩ <;>
    · rw [process_reply_error_eq]
      refine List.mem_flatMap.mpr ⟨(g, rm), hm, ?_⟩
      simp [hr, errorGroupActions]

/-- Witness for the double-deadline theorem at the batch of fixture A. -/
theorem outer_timeout_dropped_witness :
    ((1, (⟨48, 9, ⟨7, 1⟩⟩ : FollowerRequestMeta)) ∈ nhFixtureA.meta_map ∧
     registryHas [gFixtureA] 1 = true) ∧
    ((do_heartbeat [gFixtureA] 1000 100 20 nhFixtureA
        .outerTimeout).routed = some [] ∧
    (do_heartbeat [gFixtureA] 1000 100 20 nhFixtureA
        (.completed (.error 3))).routed =
      some (process_reply_error [gFixtureA] nhFixtureA.target
        nhFixtureA.meta_map 3) ∧
    ReplyAction.updateSuppress 1 ⟨7, 1⟩ 48 false ∈
      process_reply_error [gFixtureA] nhFixtureA.target
        nhFixtureA.meta_map 3) := by
  have h := outer_timeout_dropped [gFixtureA] 1000 100 20 nhFixtureA 3 1
    ⟨48, 9, ⟨7, 1⟩⟩ (by decide) (by decide)
  exact ⟨⟨by decide, by decide⟩, h.2.1, h.2.2.2.1, h.2.2.2.2.2.1⟩

/-- C6: a batch whose target is the local node takes the synthetic
path: the fan-out element is the self path (no transport call), the
fabricated reply is routed through the success branch of
`process_reply`, and it carries one per-group entry per request HBMeta,
each with success status and `node_id` equal to that HBMeta's
`target_node_id`. -/
theorem self_heartbeat_synthesized (reg : List ConsensusState)
    (self : NodeId) (now interval timeout : Int)
    (reqs : List NodeHeartbeat) (outcomes : NodeHeartbeat → SendOutcome)
    (r : NodeHeartbeat) (hr : r ∈ reqs) (ht : r.target = self) :
    DispatchedSend.selfPath (do_self_heartbeat reg r) ∈
      send_heartbeats reg self now interval timeout reqs outcomes ∧
    do_self_heartbeat reg r =
      process_reply reg r.target r.meta_map
        (.ok (self_heartbeat_reply r)) ∧
    (self_heartbeat_reply r).meta.length = r.request.length ∧
    ∀ a ∈ (self_heartbeat_reply r).meta,
      a.result = .success ∧
      ∃ hb ∈ r.request, a.node_id = hb.target_node_id ∧
        a.target_node_id = hb.target_node_id ∧
        a.group = hb.meta.group := by
  refine ⟨?_, rfl, by simp [self_heartbeat_reply], ?_⟩
  · exact List.mem_map.mpr ⟨r, hr, by simp [ht]⟩
  · intro a ha
    rcases List.mem_map.mp ha with ⟨hb, hhb, rfl⟩
    exact ⟨rfl, hb, hhb, rfl, rfl, rfl⟩

/-- Witness for the self-heartbeat synthesis at the self batch of
fixture A. -/
theorem self_heartbeat_synthesized_witness :
    (nhFixtureSelf ∈ [nhFixtureSelf, nhFixtureA] ∧
     nhFixtureSelf.target = 5) ∧
    (DispatchedSend.selfPath (do_self_heartbeat [gFixtureA] nhFixtureSelf) ∈
      send_heartbeats [gFixtureA] 5 1000 100 20 [nhFixtureSelf, nhFixtureA]
        (fun _ => .outerTimeout) ∧
    ∀ a ∈ (self_heartbeat_reply nhFixtureSelf).meta,
      a.result = .success ∧
      ∃ hb ∈ nhFixtureSelf.request, a.node_id = hb.target_node_id ∧
        a.target_node_id = hb.target_node_id ∧
        a.group = hb.meta.group) := by
  have h := self_heartbeat_synthesized [gFixtureA] 5 1000 100 20
    [nhFixtureSelf, nhFixtureA] (fun _ => .outerTimeout) nhFixtureSelf
    (by decide) (by decide)
  exact ⟨⟨by decide, by decide⟩, h.1, h.2.2.2⟩

/-- C9: a dispatch cycle first awaits one `ensure_disconnect` per
reconnect node — each exactly once, all before any send — and the send
suffix does not depend on the disconnect results, so a failed
disconnect never suppresses the sends of the cycle. -/
theorem dispatch_disconnect_then_send (c : List ConsensusState)
    (self : NodeId) (now interval timeout : Int)
    (f g : NodeId → Bool) (outcomes : NodeHeartbeat → SendOutcome) :
    ∃ post,
      do_dispatch_heartbeats c self now interval timeout f outcomes =
        ((requests_for_range c now interval).1.reconnect_nodes.map
          (fun n => DispatchAction.ensureDisconnect n (f n))) ++ post ∧
      do_dispatch_heartbeats c self now interval timeout g outcomes =
        ((requests_for_range c now interval).1.reconnect_nodes.map
          (fun n => DispatchAction.ensureDisconnect n (g n))) ++ post ∧
      (∀ a ∈ post, ∃ r s, a = DispatchAction.send r s) ∧
      (requests_for_range c now interval).1.reconnect_nodes.Nodup ∧
      ∀ n ∈ (requests_for_range c now interval).1.reconnect_nodes,
        (((requests_for_range c now interval).1.reconnect_nodes.map
          (fun m => DispatchAction.ensureDisconnect m (f m))).count
          (DispatchAction.ensureDisconnect n (f n))) = 1 := by
  have hnodup : (requests_for_range c now interval).1.reconnect_nodes.Nodup := by
    by_cases hc : c.isEmpty
    · simp [requests_for_range, hc]
    · simp only [requests_for_range, hc, if_false, Bool.false_eq_true]
      exact (plan_groups_nodup (now - interval) c).2
  refine ⟨((requests_for_range c now interval).1.requests.zip
      (send_heartbeats c self now interval timeout
        (requests_for_range c now interval).1.requests outcomes)).map
      (fun p => DispatchAction.send p.1 p.2), by rfl, by rfl, ?_, hnodup,
      ?_⟩
  · intro a ha
    rcases List.mem_map.mp ha with ⟨p, _, rfl⟩
    exact ⟨p.1, p.2, rfl⟩
  · intro n hn
    have hinj : Function.Injective
        (fun m => DispatchAction.ensureDisconnect m (f m)) := by
      intro a b hab
      simpa using congrArg
        (fun x => match x with
          | DispatchAction.ensureDisconnect m _ => m
          | _ => 0) hab
    apply List.count_eq_one_of_mem (hnodup.map hinj)
    exact List.mem_map_of_mem _ hn

end Heartbeat
